import Mathlib

/-!
# Verification of the Customer.io plugin (PostHog/customerio-plugin)

Shallow embedding of the plugin's source into Lean 4, with theorems settling
the frozen claims about its specification.

The repository contains several variants of the plugin. The primary variant is
the storage-based TypeScript plugin (`src/index.ts`, first document:
`setupPlugin` / `exportEvents` / `syncCustomerMetadata` /
`shouldCustomerBeTracked` / `exportSingleEvent` / `isEmail` /
`getEmailFromEvent` / `callCustomerIoApi`).  The older JavaScript variant
(`src/index.js`, first document) is embedded where claims cite it
(its batch loop with per-event try/catch, `isAnonymousUser`, and
`fetchWithRetry`).

Modelling conventions:
- JavaScript objects used as string-keyed records are association lists
  `List (String × JValue)`; a later binding shadows an earlier one
  (`objGet` returns the last binding), matching object-spread semantics.
- JavaScript `Set` (insertion-ordered, deduplicated) is a `List String`
  manipulated only through `setAdd` / `setOfArray`; `size` is `List.length`.
- The persistent key-value storage is a total function `String → List String`
  (absent keys read as the default `[]`, as in `storage.get(key, [])`).
- `async`/`await` with `Promise.all` over storage operations is linearised:
  events are processed in batch order.  Outbound HTTP calls are recorded in a
  trace (`List Call`); an oracle `Call → Bool` decides whether each call
  succeeds (`true`) or throws (`false`).  A JavaScript exception is modelled
  as a `false`/`.error` result value.
- Property values are modelled by the flat `JValue` type (string, boolean,
  integer number, null); this covers every value the claims exercise.
-/

/-- A JSON-ish JavaScript value, as found in event properties and payloads. -/
inductive JValue where
  | str (s : String)
  | bool (b : Bool)
  | num (n : Int)
  | null
  deriving DecidableEq, Repr

/-- JavaScript truthiness of a `JValue` (`''`, `false`, `0`, `null` are falsy). -/
def JValue.truthy : JValue → Bool
  | .str s => s ≠ ""
  | .bool b => b
  | .num n => n ≠ 0
  | .null => false

/-- Property lookup on an object modelled as an association list.
A later binding shadows an earlier one, matching JavaScript object-spread
semantics (`{...a, k: v}` overrides `a.k`). -/
def objGet : List (String × JValue) → String → Option JValue
  | [], _ => none
  | p :: rest, k =>
    match objGet rest k with
    | some v => some v
    | none => if p.1 = k then some p.2 else none

/-- An incoming PostHog event (`ProcessedPluginEvent`), restricted to the
fields the plugin reads: `event` (name), `distinct_id`, `$set`, `properties`.
`none` models an absent (`undefined`) field. -/
structure Event where
  event : String
  distinct_id : String
  set : Option (List (String × JValue))
  properties : Option (List (String × JValue))
  deriving DecidableEq, Repr

/-! ## Email validation (`isEmail`)

The source tests the lowercased input against the regex

`^(([^<>()[\]\\.,;:\s@"]+(\.[^<>()[\]\\.,;:\s@"]+)*)|(".+"))@((\[[0-9]{1,3}\.[0-9]{1,3}\.[0-9]{1,3}\.[0-9]{1,3}\])|(([a-zA-Z\-0-9]+\.)+[a-zA-Z]{2,}))$`

We embed it as a direct recognizer on `List Char`:
the string must split as `local ++ "@" ++ domain` (any occurrence of `@`
may serve as the separator, matching the regex's backtracking) where
`local` is dot-separated atoms or a quoted string, and `domain` is a
bracketed IPv4 literal or a dotted host name. -/

/-- The JavaScript `\s` class, restricted to the characters that can occur in
our setting (ASCII whitespace plus NBSP). -/
def jsSpace (c : Char) : Bool :=
  c = ' ' || c = '\t' || c = '\n' || c = '\r' || c = '\x0b' || c = '\x0c' || c = '\u00A0'

/-- A character allowed in an unquoted local-part atom:
`[^<>()[\]\\.,;:\s@"]`. -/
def emailAtomChar (c : Char) : Bool :=
  !(c = '<' || c = '>' || c = '(' || c = ')' || c = '[' || c = ']' || c = '\\' ||
    c = '.' || c = ',' || c = ';' || c = ':' || c = '@' || c = '"' || jsSpace c)

/-- Split a character list on a separator character (used for `\.`-separated
regex groups; the classes on either side never contain the separator). -/
def splitOnChar (sep : Char) : List Char → List (List Char)
  | [] => [[]]
  | c :: rest =>
    match splitOnChar sep rest with
    | [] => [[c]]
    | cur :: parts => if c = sep then [] :: cur :: parts else (c :: cur) :: parts

/-- A line-terminator character, which the regex `.` does not match. -/
def lineTermChar (c : Char) : Bool :=
  c = '\n' || c = '\r' || c = '\u2028' || c = '\u2029'

/-- Local part, unquoted alternative:
`[atom]+(\.[atom]+)*` — nonempty dot-separated atoms. -/
def emailDotAtoms (l : List Char) : Bool :=
  (splitOnChar '.' l).all (fun p => !p.isEmpty && p.all emailAtomChar)

/-- Local part, quoted alternative: `".+"`. -/
def emailQuotedLocal (l : List Char) : Bool :=
  decide (3 ≤ l.length) && decide (l.head? = some '"') && decide (l.getLast? = some '"') &&
    ((l.drop 1).dropLast.all (fun c => !lineTermChar c))

/-- Local part of the email regex. -/
def emailLocalPart (l : List Char) : Bool :=
  emailDotAtoms l || emailQuotedLocal l

/-- Domain, bracketed IPv4 alternative: `\[[0-9]{1,3}(\.[0-9]{1,3}){3}\]`. -/
def emailBracketIPv4 (l : List Char) : Bool :=
  decide (l.head? = some '[') && decide (l.getLast? = some ']') &&
    (let parts := splitOnChar '.' ((l.drop 1).dropLast)
     decide (parts.length = 4) &&
       parts.all (fun p => decide (1 ≤ p.length ∧ p.length ≤ 3) && p.all Char.isDigit))

/-- Domain, host-name alternative: `([a-zA-Z\-0-9]+\.)+[a-zA-Z]{2,}`. -/
def emailHostName (l : List Char) : Bool :=
  let parts := splitOnChar '.' l
  decide (2 ≤ parts.length) &&
    parts.dropLast.all (fun p => !p.isEmpty && p.all (fun c => c.isAlphanum || c = '-')) &&
    (match parts.getLast? with
     | some last => decide (2 ≤ last.length) && last.all Char.isAlpha
     | none => false)

/-- Domain part of the email regex. -/
def emailDomain (l : List Char) : Bool :=
  emailBracketIPv4 l || emailHostName l

/-- Try every split `l = pre ++ [sep] ++ rest` at a literal `@`, matching the
anchored regex `^(local)@(domain)$` under backtracking. -/
def emailScan (pre : List Char) : List Char → Bool
  | [] => false
  | c :: rest =>
    if c = '@' then
      (emailLocalPart pre && emailDomain rest) || emailScan (pre ++ [c]) rest
    else
      emailScan (pre ++ [c]) rest

/-- `isEmail` from the source: lowercase the input (ASCII case mapping, as the
inputs at issue are ASCII) and test it against the email regex. -/
def isEmail (s : String) : Bool :=
  emailScan [] (s.data.map Char.toLower)

/-- `isEmail` applied to an arbitrary JavaScript value: the TypeScript
`isEmail` returns `false` for any non-string (`typeof email !== 'string'`). -/
def isEmailValue : JValue → Bool
  | .str s => isEmail s
  | _ => false

/-! ## Email extraction (`getEmailFromEvent`, `src/index.ts` first document)

```ts
function getEmailFromEvent(event: ProcessedPluginEvent): string | null {
    const setAttribute = event.$set
    if (typeof setAttribute !== 'object' || !setAttribute['email']) {
        return null
    }
    const emailCandidate = setAttribute['email']
    if (isEmail(emailCandidate)) {
        return emailCandidate
    }
    // Use distinct ID as a last resort
    if (isEmail(event.distinct_id)) {
        return event.distinct_id
    }
    return null
}
```
-/

/-- `getEmailFromEvent` of the TypeScript plugin. Note that when `$set` is
absent or has no truthy `email` key the function returns `null` immediately;
the `distinct_id` branch is reached only when a truthy `$set.email` candidate
fails validation. -/
def getEmailFromEvent (ev : Event) : Option String :=
  match ev.set with
  | none => none
  | some setAttribute =>
    match objGet setAttribute "email" with
    | none => none
    | some emailCandidate =>
      if !emailCandidate.truthy then none
      else if isEmailValue emailCandidate then
        match emailCandidate with
        | .str s => some s
        | _ => none
      else if isEmail ev.distinct_id then some ev.distinct_id
      else none

/-- JavaScript truthiness of a `string | null` value (`null` and `''` falsy). -/
def emailTruthy : Option String → Bool
  | some s => s ≠ ""
  | none => false

example : isEmail "a@b.com" = true := by decide
example : isEmail "user@example.com" = true := by decide
example : isEmail "abc123" = false := by decide
example : isEmail "x@y.com" = true := by decide
example : isEmail "not-an-email" = false := by decide

/-! ## Per-customer status storage and sync
(`syncCustomerMetadata`, `src/index.ts` first document)

The persisted status is a JavaScript `Set` of flags drawn from
`{"seen", "identified", "with_email"}`, stored as an array under the key
`customer-status/${event.distinct_id}`. -/

/-- The persistent key-value store: key to stored array
(`storage.get(key, [])` reads `[]` for an absent key). -/
def Store : Type := String → List String

/-- JavaScript `Set.prototype.add`: append if absent (insertion order kept). -/
def setAdd (l : List String) (x : String) : List String :=
  if x ∈ l then l else l ++ [x]

/-- JavaScript `new Set(array)`: deduplicate, keeping first occurrences. -/
def setOfArray (l : List String) : List String :=
  l.foldl setAdd []

/-- The customer record computed per event by `syncCustomerMetadata`. -/
structure Customer where
  status : List String
  existsAlready : Bool
  email : Option String
  deriving DecidableEq, Repr

/-- The storage key `customer-status/${event.distinct_id}`. -/
def statusKey (ev : Event) : String :=
  "customer-status/" ++ ev.distinct_id

/-- The in-memory status update of `syncCustomerMetadata`:
`add('seen')`; `add('identified')` when the event is `$identify`;
`add('with_email')` when a (truthy) email was found. -/
def updatedStatus (ev : Event) (arr : List String) : List String :=
  let s1 := setAdd (setOfArray arr) "seen"
  let s2 := if ev.event = "$identify" then setAdd s1 "identified" else s1
  if emailTruthy (getEmailFromEvent ev) then setAdd s2 "with_email" else s2

/-- `syncCustomerMetadata`: read the stored status array, compute
`existsAlready` (`has('seen')` before the update), extract the email, grow the
status set, and write it back only if it grew
(`customerStatus.size > customerStatusArray.length`). -/
def syncCustomerMetadata (ev : Event) (store : Store) : Customer × Store :=
  let arr := store (statusKey ev)
  let s := updatedStatus ev arr
  let customer : Customer :=
    { status := s
      existsAlready := (setOfArray arr).contains "seen"
      email := getEmailFromEvent ev }
  if arr.length < s.length then
    (customer, fun k => if k = statusKey ev then s else store k)
  else
    (customer, store)

/-! ## Policy filter (`shouldCustomerBeTracked`) -/

/-- The three policy values of the `EventsConfig` enum. -/
inductive EventsConfig where
  | SEND_ALL
  | SEND_EMAILS
  | SEND_IDENTIFIED
  deriving DecidableEq, Repr

/-- `shouldCustomerBeTracked`: `SEND_ALL` always passes, `SEND_EMAILS`
requires the `with_email` flag, `SEND_IDENTIFIED` the `identified` flag. -/
def shouldCustomerBeTracked (customer : Customer) : EventsConfig → Bool
  | .SEND_ALL => true
  | .SEND_EMAILS => customer.status.contains "with_email"
  | .SEND_IDENTIFIED => customer.status.contains "identified"

/-! ## Outbound dispatch (`exportSingleEvent`, `exportEvents`)

Each outbound HTTP call is recorded as a `Call`; an oracle `Call → Bool`
decides whether the call succeeds or throws (`callCustomerIoApi` raising).
The event timestamp field of the track call is omitted: it involves wall-clock
time (`Date.now()`), which no claim touches. -/

/-- An outbound Customer.io API call made by `exportSingleEvent`:
the profile upsert `PUT /api/v1/customers/{id}` with its JSON body, or the
event track `POST /api/v1/customers/{id}/events` with name/type/data. -/
inductive Call where
  | upsert (distinct_id : String) (payload : List (String × JValue))
  | track (distinct_id : String) (name : String) (type : String)
      (data : List (String × JValue))
  deriving DecidableEq, Repr

/-- The profile-upsert body:
`{...(event.$set || {}), _update: customer.existsAlready,
identifier: event.distinct_id}` and, when `customer.email` is truthy,
`email: customer.email`. -/
def customerPayload (ev : Event) (customer : Customer) : List (String × JValue) :=
  (ev.set.getD []) ++
    [("_update", .bool customer.existsAlready), ("identifier", .str ev.distinct_id)] ++
    (match customer.email with
     | some e => if e ≠ "" then [("email", .str e)] else []
     | none => [])

/-- `'page'` for `$pageview`, `'screen'` for `$screen`, else `'event'`. -/
def eventTypeOf (name : String) : String :=
  if name = "$pageview" then "page" else if name = "$screen" then "screen" else "event"

/-- The track-call `data`: `event.properties` with the `$set` and `$set_once`
keys deleted beforehand. -/
def trackData (ev : Event) : List (String × JValue) :=
  (ev.properties.getD []).filter (fun p => p.1 ≠ "$set" && p.1 ≠ "$set_once")

/-- `exportSingleEvent`: issue the profile upsert; when it succeeds, issue the
track call.  Returns the calls issued and whether the whole dispatch succeeded
(`false` models an exception escaping `exportSingleEvent`). -/
def exportSingleEvent (ev : Event) (customer : Customer) (orc : Call → Bool) :
    List Call × Bool :=
  let put := Call.upsert ev.distinct_id (customerPayload ev customer)
  if orc put then
    let post := Call.track ev.distinct_id ev.event (eventTypeOf ev.event) (trackData ev)
    ([put, post], orc post)
  else
    ([put], false)

/-- `await Promise.all(events.map(event => syncCustomerMetadata(event, storage)))`,
linearised in batch order: pair every event with its customer record, threading
the store. -/
def syncAll : List Event → Store → List (Event × Customer) × Store
  | [], store => ([], store)
  | ev :: rest, store =>
    let r := syncCustomerMetadata ev store
    let rr := syncAll rest r.2
    ((ev, r.1) :: rr.1, rr.2)

/-- The three filter stages of `exportEvents`: the allow-list filter
(`global.eventNames.length === 0 || includes`), the `$create_alias` filter,
and the policy filter. -/
def fullyFilteredEventsWithCustomers (events : List Event) (eventNames : List String)
    (cfg : EventsConfig) (store : Store) : List (Event × Customer) :=
  (((syncAll events store).1.filter
      (fun p => eventNames.length = 0 || eventNames.contains p.1.event)).filter
    (fun p => p.1.event ≠ "$create_alias")).filter
    (fun p => shouldCustomerBeTracked p.2 cfg)

/-- One `Promise.all` stage over event-customer pairs: every pair's dispatch
runs (all promises are started), the stage succeeds iff all of them do. -/
def runStage : List (Event × Customer) → (Call → Bool) → List Call × Bool
  | [], _ => ([], true)
  | p :: rest, orc =>
    let r := exportSingleEvent p.1 p.2 orc
    let rr := runStage rest orc
    (r.1 ++ rr.1, r.2 && rr.2)

/-- The result of one `exportEvents` batch: the final store, the trace of
outbound calls, and whether the batch-level promise resolved (`ok = false`
models an error propagating out of `exportEvents`). -/
structure BatchResult where
  store : Store
  calls : List Call
  ok : Bool

/-- `exportEvents` of the TypeScript plugin: sync every event's customer
status, apply the three filters, split the survivors into the
customer-creation stage (`!existsAlready`) and the customer-update stage
(`existsAlready`), and run the two `Promise.all` stages in order; a failure in
the first stage rejects `exportEvents` before the second stage starts. -/
def exportEvents (events : List Event) (eventNames : List String)
    (cfg : EventsConfig) (store : Store) (orc : Call → Bool) : BatchResult :=
  if events.isEmpty then ⟨store, [], true⟩
  else
    let store' := (syncAll events store).2
    let ff := fullyFilteredEventsWithCustomers events eventNames cfg store
    if ff.isEmpty then ⟨store', [], true⟩
    else
      let creates := ff.filter (fun p => !p.2.existsAlready)
      let updates := ff.filter (fun p => p.2.existsAlready)
      let r1 := runStage creates orc
      if r1.2 then
        let r2 := runStage updates orc
        ⟨store', r1.1 ++ r2.1, r2.2⟩
      else
        ⟨store', r1.1, false⟩

/-! ## HTTP status classification (`callCustomerIoApi`, `src/index.ts`)

```ts
try { response = await fetch(...) } catch (e) { throw new RetryError(...) }
const responseStatusClass = Math.floor(response.status / 100)
if (response.status === 401 || response.status === 403) { throw new Error(...) }
if (response.status === 408 || response.status === 429 || responseStatusClass === 5) {
    throw new RetryError(...) }
if (responseStatusClass !== 2) { throw new Error(...) }
return response
```
-/

/-- The outcome of the underlying `fetch`: a transport-level failure
(rejected promise) or an HTTP response with a status code. -/
inductive FetchResult where
  | failure
  | status (n : Nat)
  deriving DecidableEq, Repr

/-- How `callCustomerIoApi` surfaces an outcome to its caller: return the
response, throw `RetryError` (retryable), or throw a plain `Error`
(fatal, non-retryable). -/
inductive ApiOutcome where
  | success
  | retryableError
  | fatalError
  deriving DecidableEq, Repr

/-- The control flow of `callCustomerIoApi` (shared verbatim with
`fetchWithErrorHandling` of the second TypeScript document), as a
classification of the fetch outcome. `setupPlugin`'s credential check calls
this on `GET /v1/api/info/ip_addresses`. -/
def callCustomerIoApi : FetchResult → ApiOutcome
  | .failure => .retryableError
  | .status n =>
    let responseStatusClass := n / 100
    if n = 401 ∨ n = 403 then .fatalError
    else if n = 408 ∨ n = 429 ∨ responseStatusClass = 5 then .retryableError
    else if responseStatusClass ≠ 2 then .fatalError
    else .success

/-! ## Transport retry wrapper (`fetchWithRetry`, `src/index.js`)

```js
async function fetchWithRetry(url, options = {}, method = 'GET', isRetry = false) {
    try {
        const res = await fetch(url, { method: method, ...options })
        return res
    } catch {
        if (isRetry) {
            console.error(`${method} request to ${url} failed.`)
            return
        }
        const res = await fetchWithRetry(url, options, (method = method), (isRetry = true))
        return res
    }
}
```

The oracle gives each fetch attempt's outcome (`true` = the promise resolves);
the model additionally counts the fetch attempts made.  `Option Unit` stands
for the returned response (`none` = the `undefined` return after the retry
also failed). -/

/-- `fetchWithRetry`: one recursive retry, guarded by the `isRetry` flag.
The recursion is from `isRetry = false` to `isRetry = true` only, so the
function is total (the measure `if isRetry then 0 else 1` decreases). -/
def fetchWithRetry (orc : Nat → Bool) : Bool → Option Unit × Nat
  | true => if orc 1 then (some (), 1) else (none, 1)
  | false =>
    if orc 0 then (some (), 1)
    else
      let r := fetchWithRetry orc true
      (r.1, r.2 + 1)
termination_by isRetry => if isRetry then 0 else 1

/-! ## The JavaScript batch loop (`exportEvents`, `src/index.js` first document)

```js
for (const event of events) {
    if (
        (global.eventNames.length > 0 && !global.eventNames.includes(event.event)) ||
        (global.eventsConfig === eventsConfig.SEND_IDENTIFIED && isAnonymousUser(event))
    ) {
        continue
    }
    try {
        await exportToCustomerio(event, global.customerioAuthHeader, config.host, meta)
    } catch (error) {
        console.error('Failed to export to Customer.io')
    }
}
```

`exportToCustomerio` is abstracted by a per-event oracle
(`true` = it returned, `false` = it threw); the claim under test is about the
loop's failure isolation, not about `exportToCustomerio`'s internals. -/

/-- The anonymous distinct-id pattern
`^[\w]{14}-[\w]{14}-[\w]{8}-[\w]{6}-[\w]{14}$` used by `isAnonymousUser`
when the event has no `properties`. `\w` (`[A-Za-z0-9_]`) never matches `-`,
so the regex is equivalent to splitting on `-`. -/
def anonDistinctIdPattern (s : String) : Bool :=
  let isWordChar : Char → Bool := fun c => c.isAlphanum || c = '_'
  match splitOnChar '-' s.data with
  | [a, b, c, d, e] =>
    decide (a.length = 14) && decide (b.length = 14) && decide (c.length = 8) &&
      decide (d.length = 6) && decide (e.length = 14) &&
      (a ++ b ++ c ++ d ++ e).all isWordChar
  | _ => false

/-- `isAnonymousUser` from `src/index.js`: with `properties` present, check
`properties['$device_id'] === distinct_id`; otherwise match the distinct_id
against the anonymous-id pattern. -/
def isAnonymousUser (ev : Event) : Bool :=
  match ev.properties with
  | some props => decide (objGet props "$device_id" = some (.str ev.distinct_id))
  | none => anonDistinctIdPattern ev.distinct_id

/-- The skip condition of the JavaScript batch loop. -/
def jsSkipsEvent (eventNames : List String) (cfg : EventsConfig) (ev : Event) : Bool :=
  (0 < eventNames.length && !eventNames.contains ev.event) ||
    (cfg = EventsConfig.SEND_IDENTIFIED && isAnonymousUser ev)

/-- The JavaScript batch loop: each non-skipped event's dispatch is attempted
inside `try`/`catch`; a `false` outcome is logged and the loop continues. -/
def exportEventsJsLoop (eventNames : List String) (cfg : EventsConfig)
    (dispatch : Event → Bool) : List Event → List (Event × Bool)
  | [] => []
  | ev :: rest =>
    if jsSkipsEvent eventNames cfg ev then
      exportEventsJsLoop eventNames cfg dispatch rest
    else
      (ev, dispatch ev) :: exportEventsJsLoop eventNames cfg dispatch rest

/-- `exportEvents` of `src/index.js`: `global.eventNames` still unset
(`none`, setup failed) throws `RetryError`; otherwise the loop runs to
completion and returns normally.  The result lists each attempted event with
its dispatch outcome. -/
def exportEventsJs (eventNames : Option (List String)) (cfg : EventsConfig)
    (dispatch : Event → Bool) (events : List Event) :
    Except String (List (Event × Bool)) :=
  match eventNames with
  | none => .error "setupPlugin failed. Cannot run exportEvents."
  | some names => .ok (exportEventsJsLoop names cfg dispatch events)

/-! ## Concrete inputs used by witnesses and counterexamples -/

/-- The empty store (every key reads `[]`). -/
def emptyStore : Store := fun _ => []

/-- A store in which distinct_id `u` (and only it) already has the
`seen` flag. -/
def seenStoreU : Store := fun k => if k = "customer-status/u" then ["seen"] else []

/-- A store in which distinct_id `u2` (and only it) already has the
`seen` flag. -/
def cexStore : Store := fun k => if k = "customer-status/u2" then ["seen"] else []

/-- An oracle that fails the profile upsert of distinct_id `u1` and lets
every other call succeed. -/
def cexOrc : Call → Bool := fun c =>
  match c with
  | .upsert d _ => d ≠ "u1"
  | _ => true

/-- An oracle under which every outbound call succeeds. -/
def allOkOrc : Call → Bool := fun _ => true

/-- A batch event for a fresh customer `u1` (no `$set`, no properties). -/
def cexEv1 : Event := ⟨"e1", "u1", none, none⟩

/-- A batch event for the already-seen customer `u2`. -/
def cexEv2 : Event := ⟨"e2", "u2", none, none⟩

/-- The spec's profile-payload example event:
`{distinct_id: "u1", $set: {email: "x@y.com", plan: "pro"}}`. -/
def wEv7 : Event :=
  ⟨"$identify", "u1", some [("email", JValue.str "x@y.com"), ("plan", JValue.str "pro")], none⟩

/-- The customer record computed for `wEv7` against the empty store
(in particular `existsAlready = false`). -/
def wCust7 : Customer := (syncCustomerMetadata wEv7 emptyStore).1

/-! # Theorems -/

/-- **C1.** Email extraction, evaluated on the code.  The claim's first and
third examples hold (`$set.email = "a@b.com"` resolves to `"a@b.com"`; a
non-email `distinct_id` with no email anywhere resolves to `null`), but the
claimed fallback "distinct_id whenever it passes email validation" does not:
for an event with no `$set.email` whose `distinct_id` is
`"user@example.com"` the code returns `null`, because `getEmailFromEvent`
returns early when `$set` has no truthy `email` key; its
"Use distinct ID as a last resort" branch is reachable only when a truthy
`$set.email` candidate fails validation (last conjunct). -/
theorem getEmailFromEvent_drops_distinct_id_fallback :
    getEmailFromEvent ⟨"e", "u1", some [("email", .str "a@b.com")], none⟩ = some "a@b.com" ∧
    isEmail "user@example.com" = true ∧
    getEmailFromEvent ⟨"e", "user@example.com", none, none⟩ = none ∧
    getEmailFromEvent ⟨"e", "user@example.com", some [("plan", .str "pro")], none⟩ = none ∧
    getEmailFromEvent ⟨"e", "abc123", none, none⟩ = none ∧
    getEmailFromEvent ⟨"e", "user@example.com", some [("email", .str "not-an-email")], none⟩ =
      some "user@example.com" := by
  decide

/-- **C5.** The credential-check classification of `callCustomerIoApi`:
transport failure is retryable; a 401/403 status is fatal; 408, 429 and 5xx
are retryable; any 2xx succeeds; every other status is fatal — and nothing
else maps to each outcome. -/
theorem callCustomerIoApi_classification :
    callCustomerIoApi .failure = .retryableError ∧
    ∀ n : Nat,
      (callCustomerIoApi (.status n) = .fatalError ↔
        (n = 401 ∨ n = 403 ∨ (n / 100 ≠ 2 ∧ n ≠ 408 ∧ n ≠ 429 ∧ n / 100 ≠ 5))) ∧
      (callCustomerIoApi (.status n) = .retryableError ↔
        ((n = 408 ∨ n = 429 ∨ n / 100 = 5) ∧ n ≠ 401 ∧ n ≠ 403)) ∧
      (callCustomerIoApi (.status n) = .success ↔ n / 100 = 2) := by
  refine ⟨rfl, fun n => ?_⟩
  simp only [callCustomerIoApi]
  split_ifs with h1 h2 h3 <;> simp_all <;> omega

/-- Witness for C5 at the spec's concrete inputs: 401 is fatal, 503 is
retryable, a transport failure is retryable, 200 succeeds, 404 is fatal. -/
theorem callCustomerIoApi_classification_witness :
    callCustomerIoApi (.status 401) = .fatalError ∧
    callCustomerIoApi (.status 503) = .retryableError ∧
    callCustomerIoApi .failure = .retryableError ∧
    callCustomerIoApi (.status 200) = .success ∧
    callCustomerIoApi (.status 404) = .fatalError :=
  ⟨((callCustomerIoApi_classification.2 401).1).mpr (by omega),
   ((callCustomerIoApi_classification.2 503).2.1).mpr (by omega),
   callCustomerIoApi_classification.1,
   ((callCustomerIoApi_classification.2 200).2.2).mpr (by omega),
   ((callCustomerIoApi_classification.2 404).1).mpr (by omega)⟩

/-- **C8.** The transport retry wrapper makes at most two fetch attempts per
call: exactly two when the first attempt fails with a connection error
(one retry), one when the first attempt resolves.  Totality of the
self-recursive `fetchWithRetry` is established by its termination measure
(`isRetry` only ever flips from `false` to `true`). -/
theorem fetchWithRetry_at_most_two_attempts :
    ∀ orc : Nat → Bool,
      (fetchWithRetry orc false).2 ≤ 2 ∧
      (orc 0 = false → (fetchWithRetry orc false).2 = 2) ∧
      (orc 0 = true → (fetchWithRetry orc false).2 = 1) := by
  intro orc
  by_cases h : orc 0 <;> by_cases h1 : orc 1 <;> simp [fetchWithRetry, h, h1]

/-- Witness for C8: with every fetch attempt failing, the wrapper makes
exactly two attempts and gives up. -/
theorem fetchWithRetry_at_most_two_attempts_witness :
    (fetchWithRetry (fun _ => false) false).2 = 2 :=
  (fetchWithRetry_at_most_two_attempts (fun _ => false)).2.1 rfl

/-! ## Lemmas about the JavaScript-`Set` model -/

theorem mem_setAdd {l : List String} {x y : String} :
    y ∈ setAdd l x ↔ y ∈ l ∨ y = x := by
  by_cases h : x ∈ l
  · simp only [setAdd, if_pos h]
    constructor
    · exact Or.inl
    · rintro (hy | rfl)
      · exact hy
      · exact h
  · simp [setAdd, if_neg h]

theorem mem_setAdd_self {l : List String} {x : String} : x ∈ setAdd l x :=
  mem_setAdd.mpr (Or.inr rfl)

theorem mem_setAdd_of_mem {l : List String} {x y : String} (h : y ∈ l) :
    y ∈ setAdd l x :=
  mem_setAdd.mpr (Or.inl h)

theorem setAdd_nodup {l : List String} {x : String} (h : l.Nodup) :
    (setAdd l x).Nodup := by
  by_cases hx : x ∈ l
  · simpa [setAdd, if_pos hx] using h
  · simp only [setAdd, if_neg hx]
    induction l with
    | nil => simp
    | cons a as ih =>
      simp only [List.cons_append, List.nodup_cons] at h ⊢
      refine ⟨?_, ih h.2 (fun hm => hx (List.mem_cons_of_mem a hm))⟩
      intro hmem
      rcases List.mem_append.mp hmem with hm | hm
      · exact h.1 hm
      · simp only [List.mem_singleton] at hm
        exact hx (hm ▸ List.mem_cons_self a as)

theorem length_le_setAdd {l : List String} {x : String} :
    l.length ≤ (setAdd l x).length := by
  by_cases h : x ∈ l <;> simp [setAdd, h]

theorem setAdd_eq_of_length_le {l : List String} {x : String}
    (h : (setAdd l x).length ≤ l.length) : setAdd l x = l := by
  by_cases hx : x ∈ l
  · simp [setAdd, hx]
  · exfalso
    simp [setAdd, hx] at h

theorem mem_setOfArray_aux {acc l : List String} {y : String} :
    y ∈ l.foldl setAdd acc ↔ y ∈ acc ∨ y ∈ l := by
  induction l generalizing acc with
  | nil => simp
  | cons a as ih =>
    simp only [List.foldl_cons, ih, mem_setAdd, List.mem_cons]
    tauto

theorem mem_setOfArray {l : List String} {y : String} :
    y ∈ setOfArray l ↔ y ∈ l := by
  simp [setOfArray, mem_setOfArray_aux]

theorem setOfArray_nodup (l : List String) : (setOfArray l).Nodup := by
  suffices h : ∀ acc : List String, acc.Nodup → (l.foldl setAdd acc).Nodup from
    h [] List.nodup_nil
  induction l with
  | nil => intro acc hacc; simpa using hacc
  | cons a as ih => intro acc hacc; exact ih _ (setAdd_nodup hacc)

theorem setOfArray_eq_self {l : List String} (h : l.Nodup) : setOfArray l = l := by
  suffices haux : ∀ acc : List String, l.Nodup → (∀ x ∈ l, x ∉ acc) →
      l.foldl setAdd acc = acc ++ l by
    simpa using haux [] h (by simp)
  clear h
  induction l with
  | nil => simp
  | cons a as ih =>
    intro acc hnd hdis
    simp only [List.nodup_cons] at hnd
    have hna : a ∉ acc := hdis a (List.mem_cons_self a as)
    simp only [List.foldl_cons, setAdd, if_neg hna]
    rw [ih (acc ++ [a]) hnd.2]
    · simp
    · intro x hx hmem
      rcases List.mem_append.mp hmem with hm | hm
      · exact hdis x (List.mem_cons_of_mem a hx) hm
      · simp only [List.mem_singleton] at hm
        exact hnd.1 (hm ▸ hx)

/-! ## Lemmas about the status update and the store -/

theorem mem_updatedStatus_of_mem {ev : Event} {arr : List String} {y : String}
    (h : y ∈ arr) : y ∈ updatedStatus ev arr := by
  have h1 : y ∈ setAdd (setOfArray arr) "seen" :=
    mem_setAdd_of_mem (mem_setOfArray.mpr h)
  unfold updatedStatus
  split_ifs <;> solve_by_elim [mem_setAdd_of_mem]

theorem seen_mem_updatedStatus (ev : Event) (arr : List String) :
    "seen" ∈ updatedStatus ev arr := by
  have h1 : "seen" ∈ setAdd (setOfArray arr) "seen" := mem_setAdd_self
  unfold updatedStatus
  split_ifs <;> solve_by_elim [mem_setAdd_of_mem]

theorem identified_mem_updatedStatus {ev : Event} (arr : List String)
    (h : ev.event = "$identify") : "identified" ∈ updatedStatus ev arr := by
  unfold updatedStatus
  simp only [if_pos h]
  split_ifs <;> solve_by_elim [mem_setAdd_of_mem, mem_setAdd_self]

theorem with_email_mem_updatedStatus {ev : Event} (arr : List String)
    (h : emailTruthy (getEmailFromEvent ev) = true) :
    "with_email" ∈ updatedStatus ev arr := by
  unfold updatedStatus
  simp only [h, if_pos]
  exact mem_setAdd_self

theorem with_email_not_mem_updatedStatus {ev : Event} {arr : List String}
    (hem : emailTruthy (getEmailFromEvent ev) = false)
    (h : "with_email" ∉ arr) : "with_email" ∉ updatedStatus ev arr := by
  unfold updatedStatus
  simp only [hem, Bool.false_eq_true, if_false]
  intro hmem
  split_ifs at hmem with hid
  · rcases mem_setAdd.mp hmem with h2 | h2
    · rcases mem_setAdd.mp h2 with h3 | h3
      · exact h (mem_setOfArray.mp h3)
      · exact absurd h3 (by decide)
    · exact absurd h2 (by decide)
  · rcases mem_setAdd.mp hmem with h2 | h2
    · exact h (mem_setOfArray.mp h2)
    · exact absurd h2 (by decide)

theorem updatedStatus_nodup (ev : Event) (arr : List String) :
    (updatedStatus ev arr).Nodup := by
  unfold updatedStatus
  split_ifs <;> solve_by_elim [setAdd_nodup, setOfArray_nodup]

theorem setAdd_eq_chain2 {l : List String} {x y : String}
    (h : (setAdd (setAdd l x) y).length ≤ l.length) : setAdd (setAdd l x) y = l := by
  have h1 : l.length ≤ (setAdd l x).length := length_le_setAdd
  have h2 : (setAdd l x).length ≤ (setAdd (setAdd l x) y).length := length_le_setAdd
  have e2 : setAdd (setAdd l x) y = setAdd l x := setAdd_eq_of_length_le (by omega)
  rw [e2] at h ⊢
  exact setAdd_eq_of_length_le (by omega)

theorem setAdd_eq_chain3 {l : List String} {x y z : String}
    (h : (setAdd (setAdd (setAdd l x) y) z).length ≤ l.length) :
    setAdd (setAdd (setAdd l x) y) z = l := by
  have h1 : l.length ≤ (setAdd l x).length := length_le_setAdd
  have h2 : (setAdd l x).length ≤ (setAdd (setAdd l x) y).length := length_le_setAdd
  have h3 : (setAdd (setAdd l x) y).length ≤ (setAdd (setAdd (setAdd l x) y) z).length :=
    length_le_setAdd
  have e3 : setAdd (setAdd (setAdd l x) y) z = setAdd (setAdd l x) y :=
    setAdd_eq_of_length_le (by omega)
  rw [e3] at h ⊢
  exact setAdd_eq_chain2 h

/-- When the status set did not grow (the no-write branch of
`syncCustomerMetadata`) and the stored array has no duplicates, the computed
status equals the stored array. -/
theorem updatedStatus_eq_of_not_grown {ev : Event} {arr : List String}
    (hnd : arr.Nodup) (h : (updatedStatus ev arr).length ≤ arr.length) :
    updatedStatus ev arr = arr := by
  unfold updatedStatus at h ⊢
  rw [setOfArray_eq_self hnd] at h ⊢
  split_ifs at h ⊢ with hid hem hem
  · exact setAdd_eq_chain3 h
  · exact setAdd_eq_chain2 h
  · exact setAdd_eq_chain2 h
  · exact setAdd_eq_of_length_le h

/-- The customer record computed by `syncCustomerMetadata`, independent of
the write-back branch. -/
theorem sync_fst (ev : Event) (st : Store) :
    (syncCustomerMetadata ev st).1 =
      { status := updatedStatus ev (st (statusKey ev))
        existsAlready := (setOfArray (st (statusKey ev))).contains "seen"
        email := getEmailFromEvent ev } := by
  by_cases hw : (st (statusKey ev)).length < (updatedStatus ev (st (statusKey ev))).length <;>
    simp [syncCustomerMetadata, hw]

/-- The store after `syncCustomerMetadata` keeps every flag it held, at every
key: the write-back only ever replaces an array by one containing it. -/
theorem sync_store_mono {ev : Event} {st : Store} {k y : String}
    (h : y ∈ st k) : y ∈ (syncCustomerMetadata ev st).2 k := by
  by_cases hw : (st (statusKey ev)).length < (updatedStatus ev (st (statusKey ev))).length <;>
    simp only [syncCustomerMetadata, hw, if_pos, if_neg, not_false_iff, if_true, if_false]
  · by_cases hk : k = statusKey ev
    · subst hk
      simpa using mem_updatedStatus_of_mem h
    · simpa [hk] using h
  · simpa [hw] using h

/-- With a duplicate-free stored array, every flag of the computed status is
present in the store after `syncCustomerMetadata` (written back when the set
grew; already present otherwise). -/
theorem sync_store_key_mem {ev : Event} {st : Store} {y : String}
    (hnd : (st (statusKey ev)).Nodup)
    (hy : y ∈ updatedStatus ev (st (statusKey ev))) :
    y ∈ (syncCustomerMetadata ev st).2 (statusKey ev) := by
  by_cases hw : (st (statusKey ev)).length < (updatedStatus ev (st (statusKey ev))).length <;>
    simp [syncCustomerMetadata, hw]
  · exact hy
  · rw [updatedStatus_eq_of_not_grown hnd (by omega)] at hy
    exact hy

/-- `syncCustomerMetadata` preserves duplicate-freeness of the store. -/
theorem sync_store_nodup {ev : Event} {st : Store}
    (h : ∀ k, (st k).Nodup) : ∀ k, ((syncCustomerMetadata ev st).2 k).Nodup := by
  intro k
  by_cases hw : (st (statusKey ev)).length < (updatedStatus ev (st (statusKey ev))).length <;>
    simp [syncCustomerMetadata, hw]
  · by_cases hk : k = statusKey ev
    · subst hk
      simpa using updatedStatus_nodup ev (st (statusKey ev))
    · simpa [hk] using h k
  · exact h k

/-- Store monotonicity over a whole batch of syncs. -/
theorem syncAll_store_mono {evs : List Event} {st : Store} {k y : String}
    (h : y ∈ st k) : y ∈ (syncAll evs st).2 k := by
  induction evs generalizing st with
  | nil => exact h
  | cons ev rest ih =>
    simp only [syncAll]
    exact ih (sync_store_mono h)

/-- Duplicate-freeness of the store over a whole batch of syncs. -/
theorem syncAll_store_nodup {evs : List Event} {st : Store}
    (h : ∀ k, (st k).Nodup) : ∀ k, ((syncAll evs st).2 k).Nodup := by
  induction evs generalizing st with
  | nil => exact h
  | cons ev rest ih =>
    simp only [syncAll]
    exact ih (sync_store_nodup h)

/-- **C3.** The persisted `CustomerStatus` flags are monotone: any flag
present in the store at any key survives one `syncCustomerMetadata` step, is
contained in the customer status that step computes for its own key, and
survives the sync of any whole sequence of events.  No operation ever clears
a flag. -/
theorem customerStatus_monotone :
    ∀ (st : Store) (k flag : String), flag ∈ st k →
      (∀ ev : Event, flag ∈ (syncCustomerMetadata ev st).2 k) ∧
      (∀ ev : Event, k = statusKey ev → flag ∈ (syncCustomerMetadata ev st).1.status) ∧
      (∀ evs : List Event, flag ∈ (syncAll evs st).2 k) := by
  intro st k flag h
  refine ⟨fun ev => sync_store_mono h, fun ev hk => ?_, fun evs => syncAll_store_mono h⟩
  rw [sync_fst]
  exact mem_updatedStatus_of_mem (hk ▸ h)

/-- Witness for C3: a stored `seen` flag for distinct_id `u` is still stored
after processing two further events for `u`. -/
theorem customerStatus_monotone_witness :
    "seen" ∈ seenStoreU "customer-status/u" ∧
    "seen" ∈ (syncAll [⟨"$identify", "u", none, none⟩, ⟨"e", "u", none, none⟩]
        seenStoreU).2 "customer-status/u" :=
  ⟨by decide,
   (customerStatus_monotone seenStoreU "customer-status/u" "seen" (by decide)).2.2
     [⟨"$identify", "u", none, none⟩, ⟨"e", "u", none, none⟩]⟩

/-- **C2, counterexample.** In the TypeScript `exportEvents`, a dispatch
failure is not isolated: with a batch of two events where the first (a
customer-creation event) fails its profile upsert, `exportEvents` rejects
(`ok = false`, the error propagates to the host) and the second event — an
update-stage sibling — is never dispatched: the whole call trace is the one
failed upsert. -/
theorem exportEvents_ts_failure_propagates :
    (exportEvents [cexEv1, cexEv2] [] .SEND_ALL cexStore cexOrc).ok = false ∧
    (exportEvents [cexEv1, cexEv2] [] .SEND_ALL cexStore cexOrc).calls =
      [Call.upsert "u1" [("_update", .bool false), ("identifier", .str "u1")]] := by
  decide

/-- **C2, amended.** In the JavaScript variant (`src/index.js`), per-event
failure isolation does hold: once setup succeeded, `exportEvents` never
throws, and the attempted events are exactly the filter-passing ones, each
with its own dispatch outcome — one event's failure never affects which other
events are attempted. -/
theorem exportEventsJs_isolates_per_event_failures :
    ∀ (names : List String) (cfg : EventsConfig) (dispatch : Event → Bool)
      (events : List Event),
      exportEventsJs (some names) cfg dispatch events =
        .ok ((events.filter (fun ev => !jsSkipsEvent names cfg ev)).map
          (fun ev => (ev, dispatch ev))) := by
  intro names cfg dispatch events
  simp only [exportEventsJs, Except.ok.injEq]
  induction events with
  | nil => rfl
  | cons ev rest ih =>
    by_cases hskip : jsSkipsEvent names cfg ev = true <;>
      simp [exportEventsJsLoop, List.filter_cons, hskip, ih]

/-! ## Provenance of outbound calls -/

theorem runStage_mem {l : List (Event × Customer)} {orc : Call → Bool} {c : Call}
    (h : c ∈ (runStage l orc).1) :
    ∃ pr ∈ l, c ∈ (exportSingleEvent pr.1 pr.2 orc).1 := by
  induction l with
  | nil => simp [runStage] at h
  | cons p rest ih =>
    simp only [runStage, List.mem_append] at h
    rcases h with h | h
    · exact ⟨p, List.mem_cons_self p rest, h⟩
    · obtain ⟨pr, hpr, hc⟩ := ih h
      exact ⟨pr, List.mem_cons_of_mem _ hpr, hc⟩

theorem mem_fullyFiltered {events : List Event} {names : List String}
    {cfg : EventsConfig} {st : Store} {pr : Event × Customer}
    (h : pr ∈ fullyFilteredEventsWithCustomers events names cfg st) :
    pr ∈ (syncAll events st).1 ∧ (names = [] ∨ pr.1.event ∈ names) ∧
      pr.1.event ≠ "$create_alias" ∧ shouldCustomerBeTracked pr.2 cfg = true := by
  unfold fullyFilteredEventsWithCustomers at h
  simp only [List.mem_filter] at h
  obtain ⟨⟨⟨h1, h2⟩, h3⟩, h4⟩ := h
  refine ⟨h1, ?_, ?_, h4⟩
  · simpa [List.length_eq_zero] using h2
  · simpa using h3

/-- Every outbound call of an `exportEvents` batch is issued by
`exportSingleEvent` for a pair that survived all three filters. -/
theorem exportEvents_calls_mem {events : List Event} {names : List String}
    {cfg : EventsConfig} {st : Store} {orc : Call → Bool} {c : Call}
    (h : c ∈ (exportEvents events names cfg st orc).calls) :
    ∃ pr ∈ fullyFilteredEventsWithCustomers events names cfg st,
      c ∈ (exportSingleEvent pr.1 pr.2 orc).1 := by
  simp only [exportEvents] at h
  split_ifs at h with h0 h1 h2
  · simp at h
  · simp at h
  · simp only [List.mem_append] at h
    rcases h with h | h
    · obtain ⟨pr, hpr, hc⟩ := runStage_mem h
      exact ⟨pr, (List.mem_filter.mp hpr).1, hc⟩
    · obtain ⟨pr, hpr, hc⟩ := runStage_mem h
      exact ⟨pr, (List.mem_filter.mp hpr).1, hc⟩
  · obtain ⟨pr, hpr, hc⟩ := runStage_mem h
    exact ⟨pr, (List.mem_filter.mp hpr).1, hc⟩

/-- The final store of `exportEvents` is the store after syncing every event
of the batch, regardless of the filter stages and of dispatch outcomes. -/
theorem exportEvents_store (events : List Event) (names : List String)
    (cfg : EventsConfig) (st : Store) (orc : Call → Bool) :
    (exportEvents events names cfg st orc).store = (syncAll events st).2 := by
  simp only [exportEvents]
  split_ifs with h0 h1 h2
  · rw [List.isEmpty_iff] at h0
    subst h0
    rfl
  · rfl
  · rfl
  · rfl

/-- Every flag an event contributes (`seen`; `identified` for `$identify`;
`with_email` when an email was resolved) is present in the store after
syncing any batch containing that event, provided the store holds no
duplicate arrays (as every store written by the plugin does). -/
theorem syncAll_flags {evs : List Event} {st : Store}
    (hnd : ∀ k, (st k).Nodup) {ev : Event} (hev : ev ∈ evs) :
    "seen" ∈ (syncAll evs st).2 (statusKey ev) ∧
    (ev.event = "$identify" → "identified" ∈ (syncAll evs st).2 (statusKey ev)) ∧
    (emailTruthy (getEmailFromEvent ev) = true →
      "with_email" ∈ (syncAll evs st).2 (statusKey ev)) := by
  induction evs generalizing st with
  | nil => cases hev
  | cons e rest ih =>
    simp only [syncAll]
    rcases List.mem_cons.mp hev with h | h
    · subst h
      have hkey := hnd (statusKey ev)
      exact ⟨syncAll_store_mono (sync_store_key_mem hkey (seen_mem_updatedStatus ev _)),
        fun hid =>
          syncAll_store_mono (sync_store_key_mem hkey (identified_mem_updatedStatus _ hid)),
        fun hem =>
          syncAll_store_mono (sync_store_key_mem hkey (with_email_mem_updatedStatus _ hem))⟩
    · exact ih (sync_store_nodup hnd) h

/-- **C4.** Under `SEND_EMAILS`: an event passes the policy filter iff its
synced customer status contains `with_email`; an event with no resolvable
email whose distinct_id has no prior `with_email` flag in the store fails the
filter; and every outbound call of a `SEND_EMAILS` batch is issued for a
synced pair whose status contains `with_email` — so such an event never
triggers dispatch. -/
theorem send_emails_policy_iff_with_email :
    (∀ c : Customer,
      shouldCustomerBeTracked c .SEND_EMAILS = true ↔ "with_email" ∈ c.status) ∧
    (∀ (ev : Event) (st : Store), getEmailFromEvent ev = none →
      "with_email" ∉ st (statusKey ev) →
      shouldCustomerBeTracked (syncCustomerMetadata ev st).1 .SEND_EMAILS = false) ∧
    (∀ (events : List Event) (names : List String) (st : Store) (orc : Call → Bool)
      (c : Call), c ∈ (exportEvents events names .SEND_EMAILS st orc).calls →
      ∃ pr ∈ (syncAll events st).1,
        "with_email" ∈ pr.2.status ∧ c ∈ (exportSingleEvent pr.1 pr.2 orc).1) := by
  refine ⟨fun c => by simp [shouldCustomerBeTracked], ?_, ?_⟩
  · intro ev st hem hst
    rw [sync_fst]
    have hno : "with_email" ∉ updatedStatus ev (st (statusKey ev)) :=
      with_email_not_mem_updatedStatus (by rw [hem]; rfl) hst
    simpa [shouldCustomerBeTracked] using hno
  · intro events names st orc c hc
    obtain ⟨pr, hpr, hcall⟩ := exportEvents_calls_mem hc
    have hspec := mem_fullyFiltered hpr
    refine ⟨pr, hspec.1, ?_, hcall⟩
    simpa [shouldCustomerBeTracked] using hspec.2.2.2

/-- Witness for C4: the event `{event: "e", distinct_id: "abc123"}` resolves
no email, and against the empty store it fails the `SEND_EMAILS` filter. -/
theorem send_emails_policy_iff_with_email_witness :
    getEmailFromEvent ⟨"e", "abc123", none, none⟩ = none ∧
    shouldCustomerBeTracked
      (syncCustomerMetadata ⟨"e", "abc123", none, none⟩ emptyStore).1 .SEND_EMAILS = false :=
  ⟨by decide,
   send_emails_policy_iff_with_email.2.1 ⟨"e", "abc123", none, none⟩ emptyStore
     (by decide) (by decide)⟩

/-- **C6.** Name-based filtering never dispatches: every outbound call of a
batch is issued for an event that passes the allow-list (the list is empty or
contains the event's name) and is not `$create_alias`; contrapositively, an
event outside a non-empty allow-list, or named `$create_alias`, never has a
call issued for it. -/
theorem name_filter_and_create_alias_never_dispatch :
    ∀ (events : List Event) (names : List String) (cfg : EventsConfig) (st : Store)
      (orc : Call → Bool) (c : Call),
      c ∈ (exportEvents events names cfg st orc).calls →
      ∃ pr ∈ (syncAll events st).1,
        (names = [] ∨ pr.1.event ∈ names) ∧ pr.1.event ≠ "$create_alias" ∧
          c ∈ (exportSingleEvent pr.1 pr.2 orc).1 := by
  intro events names cfg st orc c hc
  obtain ⟨pr, hpr, hcall⟩ := exportEvents_calls_mem hc
  have hspec := mem_fullyFiltered hpr
  exact ⟨pr, hspec.1, hspec.2.1, hspec.2.2.1, hcall⟩

/-- Witness for C6 at a concrete batch: the one call trace of a singleton
batch with an empty allow-list originates from its (allowed, non-alias)
event. -/
theorem name_filter_and_create_alias_never_dispatch_witness :
    ∃ pr ∈ (syncAll [⟨"ping", "u", none, none⟩] emptyStore).1,
      (([] : List String) = [] ∨ pr.1.event ∈ ([] : List String)) ∧
        pr.1.event ≠ "$create_alias" ∧
        Call.upsert "u" [("_update", .bool false), ("identifier", .str "u")] ∈
          (exportSingleEvent pr.1 pr.2 allOkOrc).1 :=
  name_filter_and_create_alias_never_dispatch [⟨"ping", "u", none, none⟩] [] .SEND_ALL
    emptyStore allOkOrc _ (by decide)

/-! ## Payload shape -/

theorem objGet_append (l1 l2 : List (String × JValue)) (k : String) :
    objGet (l1 ++ l2) k =
      match objGet l2 k with
      | some v => some v
      | none => objGet l1 k := by
  induction l1 with
  | nil => cases h2 : objGet l2 k <;> simp [objGet, h2]
  | cons p rest ih =>
    cases h2 : objGet l2 k <;> simp_all [objGet]

/-- **C7.** The profile-upsert body: `_update` is the `existedAlready` flag,
`identifier` is the event's distinct_id, `email` is the resolved email when
one was found, every other key carries the value it has in the event's
`$set` object, and `existedAlready` is exactly "the stored status had `seen`
before this event". -/
theorem customerPayload_shape :
    ∀ (ev : Event) (customer : Customer),
      objGet (customerPayload ev customer) "_update" =
        some (.bool customer.existsAlready) ∧
      objGet (customerPayload ev customer) "identifier" =
        some (.str ev.distinct_id) ∧
      (∀ e : String, customer.email = some e → e ≠ "" →
        objGet (customerPayload ev customer) "email" = some (.str e)) ∧
      (emailTruthy customer.email = false →
        objGet (customerPayload ev customer) "email" = objGet (ev.set.getD []) "email") ∧
      (∀ k : String, k ≠ "_update" → k ≠ "identifier" → k ≠ "email" →
        objGet (customerPayload ev customer) k = objGet (ev.set.getD []) k) ∧
      (∀ st : Store, (syncCustomerMetadata ev st).1.existsAlready = true ↔
        "seen" ∈ st (statusKey ev)) := by
  intro ev customer
  refine ⟨?_, ?_, ?_, ?_, ?_, ?_⟩
  · rcases hem : customer.email with _ | e
    · simp [customerPayload, objGet_append, objGet, hem]
    · by_cases he : e = "" <;> simp [customerPayload, objGet_append, objGet, hem, he]
  · rcases hem : customer.email with _ | e
    · simp [customerPayload, objGet_append, objGet, hem]
    · by_cases he : e = "" <;> simp [customerPayload, objGet_append, objGet, hem, he]
  · intro e hem hne
    simp [customerPayload, objGet_append, objGet, hem, hne]
  · intro hem
    rcases he : customer.email with _ | e
    · simp [customerPayload, objGet_append, objGet, he]
    · rw [he] at hem
      have : e = "" := by simpa [emailTruthy] using hem
      simp [customerPayload, objGet_append, objGet, he, this]
  · intro k h1 h2 h3
    have h1' : ¬("_update" = k) := fun h => h1 h.symm
    have h2' : ¬("identifier" = k) := fun h => h2 h.symm
    have h3' : ¬("email" = k) := fun h => h3 h.symm
    rcases hem : customer.email with _ | e
    · simp [customerPayload, objGet_append, objGet, hem, h1', h2', h3']
    · by_cases he : e = "" <;>
        simp [customerPayload, objGet_append, objGet, hem, he, h1', h2', h3']
  · intro st
    rw [sync_fst]
    simp [mem_setOfArray]

/-- Witness for C7 at the spec's example: for
`{distinct_id: "u1", $set: {email: "x@y.com", plan: "pro"}}` against the
empty store (`existedAlready = false`), the body carries
`_update: false`, `identifier: "u1"`, `email: "x@y.com"`, `plan: "pro"`. -/
theorem customerPayload_shape_witness :
    objGet (customerPayload wEv7 wCust7) "_update" = some (.bool false) ∧
    objGet (customerPayload wEv7 wCust7) "identifier" = some (.str "u1") ∧
    objGet (customerPayload wEv7 wCust7) "email" = some (.str "x@y.com") ∧
    objGet (customerPayload wEv7 wCust7) "plan" = some (.str "pro") := by
  have h := customerPayload_shape wEv7 wCust7
  refine ⟨?_, ?_, ?_, ?_⟩
  · have h1 := h.1
    rwa [show wCust7.existsAlready = false by decide] at h1
  · exact h.2.1
  · exact h.2.2.1 "x@y.com" (by decide) (by decide)
  · have h5 := h.2.2.2.2.1 "plan" (by decide) (by decide) (by decide)
    rwa [show objGet (wEv7.set.getD []) "plan" = some (JValue.str "pro") by decide] at h5

/-! ## Frame effect and stage ordering of exportEvents -/

/-- **C9.** Per-customer status is synced for every event of the batch,
dispatched or not: the final store of `exportEvents` is exactly the store
after syncing all events (independent of the allow-list, `$create_alias` and
policy filters, and of dispatch outcomes), and every event's flags (`seen`;
`identified` for `$identify`; `with_email` when an email resolved) are
persisted for its distinct_id — given a duplicate-free store, as every store
the plugin writes is. -/
theorem sync_runs_for_all_events :
    ∀ (events : List Event) (names : List String) (cfg : EventsConfig) (st : Store)
      (orc : Call → Bool),
      (exportEvents events names cfg st orc).store = (syncAll events st).2 ∧
      ((∀ k, (st k).Nodup) → ∀ ev ∈ events,
        "seen" ∈ (syncAll events st).2 (statusKey ev) ∧
        (ev.event = "$identify" → "identified" ∈ (syncAll events st).2 (statusKey ev)) ∧
        (emailTruthy (getEmailFromEvent ev) = true →
          "with_email" ∈ (syncAll events st).2 (statusKey ev))) :=
  fun events names cfg st orc =>
    ⟨exportEvents_store events names cfg st orc,
     fun hnd _ev hev => syncAll_flags hnd hev⟩

/-- Witness for C9: an event whose name is outside the allow-list (so it is
never dispatched) still gets the `seen` flag persisted for its
distinct_id. -/
theorem sync_runs_for_all_events_witness :
    (exportEvents [⟨"blocked", "u9", none, none⟩] ["allowed"] .SEND_ALL emptyStore
        allOkOrc).store = (syncAll [⟨"blocked", "u9", none, none⟩] emptyStore).2 ∧
    "seen" ∈ (syncAll [⟨"blocked", "u9", none, none⟩] emptyStore).2 "customer-status/u9" := by
  have h := sync_runs_for_all_events [⟨"blocked", "u9", none, none⟩] ["allowed"] .SEND_ALL
    emptyStore allOkOrc
  exact ⟨h.1, (h.2 (fun _k => List.nodup_nil) ⟨"blocked", "u9", none, none⟩ (by decide)).1⟩

/-- **C10.** Two-stage dispatch ordering: the call trace of every batch
decomposes as a first block issued entirely for customers that did not exist
already (`existsAlready = false`) followed by a second block issued entirely
for customers that already existed — the first `Promise.all` stage is awaited
before any update-stage call is issued (and when it fails, no update-stage
call is issued at all). -/
theorem create_stage_before_update_stage :
    ∀ (events : List Event) (names : List String) (cfg : EventsConfig) (st : Store)
      (orc : Call → Bool),
      ∃ l1 l2 : List Call,
        (exportEvents events names cfg st orc).calls = l1 ++ l2 ∧
        (∀ c ∈ l1, ∃ pr ∈ fullyFilteredEventsWithCustomers events names cfg st,
          pr.2.existsAlready = false ∧ c ∈ (exportSingleEvent pr.1 pr.2 orc).1) ∧
        (∀ c ∈ l2, ∃ pr ∈ fullyFilteredEventsWithCustomers events names cfg st,
          pr.2.existsAlready = true ∧ c ∈ (exportSingleEvent pr.1 pr.2 orc).1) := by
  intro events names cfg st orc
  simp only [exportEvents]
  split_ifs with h0 h1 h2
  · exact ⟨[], [], rfl, by simp, by simp⟩
  · exact ⟨[], [], rfl, by simp, by simp⟩
  · refine ⟨_, _, rfl, ?_, ?_⟩
    · intro c hc
      obtain ⟨pr, hpr, hcall⟩ := runStage_mem hc
      have hf := List.mem_filter.mp hpr
      exact ⟨pr, hf.1, by simpa using hf.2, hcall⟩
    · intro c hc
      obtain ⟨pr, hpr, hcall⟩ := runStage_mem hc
      have hf := List.mem_filter.mp hpr
      exact ⟨pr, hf.1, hf.2, hcall⟩
  · refine ⟨_, [], (List.append_nil _).symm, ?_, by simp⟩
    intro c hc
    obtain ⟨pr, hpr, hcall⟩ := runStage_mem hc
    have hf := List.mem_filter.mp hpr
    exact ⟨pr, hf.1, by simpa using hf.2, hcall⟩
